import Mathlib

/-!
# Verification of the openmls-ffy client core

Shallow embedding of the two source files of the repository:

* `src/cli/src/persistent_key_store.rs` — the persistent key/credential
  store (`PersistentKeyStore`): `store`/`read`/`delete`, plain and
  password-protected `save`/`load`, with base64 text-safe encoding of
  binary keys and values.
* `src/cli/src/user.rs` — the group-session orchestrator (`User`):
  contact directory refresh, group creation/join, invite/remove
  two-phase commit delivery, message send and inbound dispatch.

Bytes are modelled as `List Nat` with entries `< 256` where it matters.
Rust `HashMap`s are modelled as association lists with an
insert-or-replace operation; `panic!`/`unwrap`/`expect` aborts are
modelled as an explicit `panicked` outcome (the mutations already made
to the state when the panic fires are kept, matching what an unwind
leaves behind).  External crates (`base64`) are embedded concretely;
external collaborators (the `cocoon` password envelope, `serde_json`,
the MLS engine, the delivery-service backend) are abstracted as the
spec directs, at the granularity the claims need.
-/

namespace OpenmlsFfy

/-! ## Base64 (the `base64` crate as used by `save`/`load`)

`persistent_key_store.rs` encodes every key and value with
`base64::encode` and decodes with `base64::decode` (standard alphabet,
`=` padding).  We embed that codec concretely over byte lists. -/

/-- Map a 6-bit group to its ASCII code in the standard base64 alphabet
(`A-Z`, `a-z`, `0-9`, `+`, `/`). -/
def sextetToChar (s : Nat) : Nat :=
  if s < 26 then 65 + s
  else if s < 52 then 97 + (s - 26)
  else if s < 62 then 48 + (s - 52)
  else if s = 62 then 43
  else 47

/-- Inverse alphabet lookup: ASCII code of a base64 digit back to its
6-bit value; `none` for any character outside the alphabet (`=` included). -/
def charToSextet (c : Nat) : Option Nat :=
  if 65 ≤ c ∧ c ≤ 90 then some (c - 65)
  else if 97 ≤ c ∧ c ≤ 122 then some (26 + (c - 97))
  else if 48 ≤ c ∧ c ≤ 57 then some (52 + (c - 48))
  else if c = 43 then some 62
  else if c = 47 then some 63
  else none

/-- Rust `base64::encode`: bytes to ASCII codes, 3 bytes → 4 digits, with
`=` (ASCII 61) padding for a 1- or 2-byte tail. -/
def b64encode : List Nat → List Nat
  | [] => []
  | [a] => [sextetToChar (a / 4), sextetToChar (a % 4 * 16), 61, 61]
  | [a, b] => [sextetToChar (a / 4), sextetToChar (a % 4 * 16 + b / 16),
               sextetToChar (b % 16 * 4), 61]
  | a :: b :: c :: rest =>
      sextetToChar (a / 4) :: sextetToChar (a % 4 * 16 + b / 16) ::
      sextetToChar (b % 16 * 4 + c / 64) :: sextetToChar (c % 64) :: b64encode rest

/-- Rust `base64::decode`: ASCII codes back to bytes; `none` on any input that
is not well-formed base64 (bad length, bad digit, interior padding). -/
def b64decode : List Nat → Option (List Nat)
  | [] => some []
  | c1 :: c2 :: c3 :: c4 :: rest =>
    match charToSextet c1, charToSextet c2 with
    | some s1, some s2 =>
      if c3 = 61 ∧ c4 = 61 ∧ rest = [] then
        some [s1 * 4 + s2 / 16]
      else if c4 = 61 ∧ rest = [] then
        match charToSextet c3 with
        | some s3 => some [s1 * 4 + s2 / 16, s2 % 16 * 16 + s3 / 4]
        | none => none
      else
        match charToSextet c3, charToSextet c4 with
        | some s3, some s4 =>
          match b64decode rest with
          | some bs => some ((s1 * 4 + s2 / 16) :: (s2 % 16 * 16 + s3 / 4) ::
                             (s3 % 4 * 64 + s4) :: bs)
          | none => none
        | _, _ => none
    | _, _ => none
  | _ => none

/-! ## The persistent key/credential store (`persistent_key_store.rs`)

`PersistentKeyStore.values` is a `HashMap<Vec<u8>, Vec<u8>>`; we model
it as an association list of byte lists, with `insertReplace` for
`HashMap::insert` (replace in place when the key exists, append
otherwise) and `List.lookup` for `HashMap::get`. -/

/-- A byte string (`Vec<u8>`); entries are `< 256` where it matters. -/
abbrev Bytes := List Nat

/-- A `HashMap<Vec<u8>, Vec<u8>>` as an association list. -/
abbrev KsMap := List (Bytes × Bytes)

/-- Rust `HashMap::insert`: replace the value in place when the key exists,
append the pair otherwise (the returned map; Rust also returns the old
value, which callers of the store test with `is_some`). -/
def insertReplace (m : KsMap) (k v : Bytes) : KsMap :=
  match m with
  | [] => [(k, v)]
  | (k', v') :: rest => if k' = k then (k, v) :: rest else (k', v') :: insertReplace rest k v

/-- The trait method `OpenMlsKeyStore::store` for `PersistentKeyStore`, below the
`serde_json::to_vec` step (which belongs to the caller-supplied entity
type): inserts or overwrites the serialized value. -/
def ksStore (m : KsMap) (k v : Bytes) : KsMap := insertReplace m k v

/-- Rust `HashMap::get`: first (hence only, keys being unique in a real map)
entry with the given key. -/
def ksLookup (m : KsMap) (k : Bytes) : Option Bytes :=
  match m with
  | [] => none
  | (k', v') :: rest => if k' = k then some v' else ksLookup rest k

/-- The trait method `OpenMlsKeyStore::read` for `PersistentKeyStore`: look the key up
and deserialize with `serde_json::from_slice(..).ok()`, modelled by the
caller-shaped partial decoder `deser`; absence and failed
deserialization both yield `none`. -/
def ksRead {V : Type} (deser : Bytes → Option V) (m : KsMap) (k : Bytes) : Option V :=
  match ksLookup m k with
  | some value => deser value
  | none => none

/-- The trait method `OpenMlsKeyStore::delete` for `PersistentKeyStore`: remove the entry
if present; always returns `Ok`. -/
def ksDelete (m : KsMap) (k : Bytes) : KsMap :=
  m.filter (fun kv => decide (kv.1 ≠ k))

/-- The `SerializableKeyStore` document built by `save`/`ciphered_save`:
every key and value base64-encoded, keyed by the encoded key.  (The
source iterates a `HashMap` in unspecified order; the document is a
key-set, so we keep the store's list order and treat reordering
explicitly in the round-trip theorems.) -/
def saveDoc (m : KsMap) : List (Bytes × Bytes) :=
  m.map (fun kv => (b64encode kv.1, b64encode kv.2))

/-- Outcome of a `load` call: `Ok(())`, `Err(String)`, or a Rust panic
(`unwrap`/`expect` firing). -/
inductive LoadOutcome : Type
  | ok : LoadOutcome
  | errMsg : String → LoadOutcome
  | panicked : String → LoadOutcome
  deriving DecidableEq, Repr

/-- What `serde_json` yields for the stored document: a parse error, or
the entry map of a `SerializableKeyStore`.  (`serde_json` is an external
collaborator; we model its two outcomes, not JSON text itself.) -/
inductive StoredDoc : Type
  | parseErr : String → StoredDoc
  | parsed : List (Bytes × Bytes) → StoredDoc
  deriving DecidableEq, Repr

/-- The entry loop shared by `load_from_file` and `ciphered_load`:
`for (key, value) in ser_ks.values { ks_map.insert(base64::decode(key).unwrap(), base64::decode(value).unwrap()); }`.
A `base64::decode` failure fires `unwrap`, i.e. panics, keeping the
insertions already made. -/
def loadEntries : List (Bytes × Bytes) → KsMap → KsMap × LoadOutcome
  | [], m => (m, LoadOutcome.ok)
  | (ek, ev) :: rest, m =>
    match b64decode ek with
    | none => (m, LoadOutcome.panicked "base64 decode of key failed (unwrap)")
    | some k =>
      match b64decode ev with
      | none => (m, LoadOutcome.panicked "base64 decode of value failed (unwrap)")
      | some v => loadEntries rest (insertReplace m k v)

/-- Method `PersistentKeyStore::load_from_file`: parse the document, then run
the entry loop; a parse error is returned with the store untouched. -/
def load_from_file (m : KsMap) : StoredDoc → KsMap × LoadOutcome
  | StoredDoc.parseErr e => (m, LoadOutcome.errMsg e)
  | StoredDoc.parsed entries => loadEntries entries m

/-- Modelled from the spec: the `cocoon` password envelope (external
crate) — "a password-derived authenticated-encryption envelope" whose
"decrypted payload is that same document"; any tag-verification failure
is a hard error.  We model it as the password it was sealed with, a flag
for whether the payload is valid UTF-8, and the payload document. -/
structure CocoonEnvelope : Type where
  password : String
  utf8Ok : Bool
  payload : StoredDoc
  deriving DecidableEq, Repr

/-- Method `PersistentKeyStore::ciphered_load`: `cocoon.parse` fails unless the
password matches (→ `Err("Error parsing user keystore with cocoon")`);
then `String::from_utf8(..).expect("Found invalid UTF-8")`; then the
same parse-and-insert path as `load_from_file`. -/
def ciphered_load (m : KsMap) (env : CocoonEnvelope) (password : String) :
    KsMap × LoadOutcome :=
  if env.password = password then
    if env.utf8Ok then load_from_file m env.payload
    else (m, LoadOutcome.panicked "Found invalid UTF-8")
  else (m, LoadOutcome.errMsg "Error parsing user keystore with cocoon")

/-- Method `PersistentKeyStore::ciphered_save`: build the document and seal it
in a cocoon envelope with the given password. -/
def ciphered_save (m : KsMap) (password : String) : CocoonEnvelope :=
  { password := password, utf8Ok := true, payload := StoredDoc.parsed (saveDoc m) }

/-! ## The group-session orchestrator (`user.rs`)

Group identifiers: the source keys `groups` by `Vec<u8>` and converts
with `name.as_bytes()` / `String::from_utf8(..)`; both are injective, so
we key by the `String` itself.  Contact keys stay `Vec<u8>`.  `strBytes`
models `as_bytes`.  The MLS engine is the external collaborator of §6:
its group state is abstracted to the membership list plus the staged
(pending) commit, its operations to total functions on that state
(engine-internal failure paths are out of scope of the claims below).
A Rust `panic!`/`unwrap`/`expect` abort is the `panicked` outcome. -/

/-- Rust `str::as_bytes`, modelled by the (injective) character-code list. -/
def strBytes (s : String) : Bytes := s.data.map Char.toNat

/-- One row of `MlsGroup::members()`: leaf index, signature key and
credential identity. -/
structure Member : Type where
  index : Nat
  signatureKey : Bytes
  identity : Bytes
  deriving DecidableEq

/-- The engine's group state (`openmls::MlsGroup`), abstracted to what
the claims observe: current membership and the pending (staged, not yet
merged) commit's resulting membership. -/
structure MlsGroup : Type where
  groupId : String
  members : List Member
  pending : Option (List Member)
  deriving DecidableEq

/-- Engine call `MlsGroup::add_members`: stages an add commit; membership is
unchanged until `merge_pending_commit`. -/
def MlsGroup.addMembers (g : MlsGroup) (newMembers : List Member) : MlsGroup :=
  { g with pending := some (g.members ++ newMembers) }

/-- Engine call `MlsGroup::remove_members`: stages a remove commit for the given
leaf indices; membership is unchanged until `merge_pending_commit`. -/
def MlsGroup.removeMembers (g : MlsGroup) (idxs : List Nat) : MlsGroup :=
  { g with pending := some (g.members.filter (fun m => decide (m.index ∉ idxs))) }

/-- Engine call `MlsGroup::merge_pending_commit`: applies the staged commit (if any)
to the membership. -/
def MlsGroup.mergePendingCommit (g : MlsGroup) : MlsGroup :=
  { g with members := g.pending.getD g.members, pending := none }

/-- Modelled from the spec: `conversation.rs` is not under `src/`; the
spec describes an append-only ordered sequence of plaintext strings. -/
structure Conversation : Type where
  messages : List String
  deriving DecidableEq

/-- Modelled from the spec: `Conversation::add` appends one message. -/
def Conversation.add (c : Conversation) (msg : String) : Conversation :=
  { messages := c.messages ++ [msg] }

/-- The `user.rs` struct `Group`: name, conversation and engine group state. -/
structure Group : Type where
  group_name : String
  conversation : Conversation
  mls_group : MlsGroup
  deriving DecidableEq

/-- The `user.rs` struct `Contact`: display name, remote id, advertised key
packages. -/
structure Contact : Type where
  username : String
  id : Bytes
  public_keys : List Bytes
  deriving DecidableEq

/-- A key package handed out by the directory service; the engine turns
it into the added member's leaf, which is all the model observes. -/
structure KeyPackage : Type where
  member : Member
  deriving DecidableEq

/-- One entry of `backend.list_clients()`. -/
structure ClientInfo : Type where
  id : Bytes
  client_name : String
  key_packages : List Bytes
  deriving DecidableEq

/-- Generic `HashMap::insert` on an association list (replace in place
or append). -/
def mapInsert {K V : Type} [DecidableEq K] : List (K × V) → K → V → List (K × V)
  | [], k, v => [(k, v)]
  | (k', v') :: rest, k, v =>
    if k' = k then (k, v) :: rest else (k', v') :: mapInsert rest k v

/-- Generic `HashMap::get` on an association list. -/
def mapLookup {K V : Type} [DecidableEq K] : List (K × V) → K → Option V
  | [], _ => none
  | (k', v') :: rest, k => if k' = k then some v' else mapLookup rest k

/-- The orchestrator state (`User`): local identity (username, signature
key of `credential_with_key`), contact directory and group sessions.
The transport backend is passed to each operation separately. -/
structure UState : Type where
  username : String
  signatureKey : Bytes
  contacts : List (Bytes × Contact)
  groups : List (String × Group)
  deriving DecidableEq

/-- Accessor `Identity::identity()`: the credential identity bytes, i.e. the
username's bytes. -/
def UState.identBytes (u : UState) : Bytes := strBytes u.username

/-- The transport/directory collaborator, modelled by the outcomes its
calls will produce: `send_msg` (`none` = delivered, `some e` = `Err(e)`),
`send_welcome`, and `consume_key_package`. -/
structure Backend : Type where
  sendMsgResult : Option String
  sendWelcomeOk : Bool
  consumeKeyPackage : Bytes → Option KeyPackage

/-- Result of an orchestrator call: `Ok`, `Err(String)`, or a panic
(`panic!`/`unwrap`/`expect`). -/
inductive OpResult (α : Type) : Type
  | ok : α → OpResult α
  | err : String → OpResult α
  | panicked : String → OpResult α
  deriving DecidableEq

/-- Externally visible actions of one orchestrator call, in order:
handing an artifact to `backend.send_msg` with its recipient list,
merging the pending commit locally, `backend.send_welcome`, and a
`println!` of a swallowed error. -/
inductive Event : Type
  | sentMsg : List Bytes → Event
  | mergedCommit : String → Event
  | sentWelcome : Event
  | printedErr : String → Event
  deriving DecidableEq

/-- Method `User::find_member_index`: scan `members()` for the credential
identity equal to `name.as_bytes()`; `Err("Unknown member")` if absent. -/
def find_member_index (name : String) (g : Group) : Except String Nat :=
  match g.mls_group.members.find? (fun m => decide (m.identity = strBytes name)) with
  | some m => Except.ok m.index
  | none => Except.error "Unknown member"

/-- Method `User::recipients` on a member list: every member whose signature
key differs from the local identity's, resolved through the contact
directory; a member missing from the directory is
`panic!("There's a member in the group we don't know.")`, modelled as
`none`. -/
def recipientsList (u : UState) : List Member → Option (List Bytes)
  | [] => some []
  | m :: rest =>
    if u.signatureKey = m.signatureKey then recipientsList u rest
    else
      match mapLookup u.contacts m.identity with
      | some c => (recipientsList u rest).map (fun rs => c.id :: rs)
      | none => none

/-- Method `User::recipients` for a group. -/
def recipients (u : UState) (g : Group) : Option (List Bytes) :=
  recipientsList u g.mls_group.members

/-- Method `User::create_group`: build a fresh engine group containing the
local member, insert it under the name's id — and `panic!` (after the
insert has replaced the map entry) when the id already had a session. -/
def create_group (u : UState) (name : String) : UState × OpResult Unit :=
  let mls : MlsGroup :=
    { groupId := name, members := [{ index := 0, signatureKey := u.signatureKey,
                                     identity := strBytes u.username }], pending := none }
  let group : Group := { group_name := name, conversation := { messages := [] },
                         mls_group := mls }
  let old := mapLookup u.groups name
  let u' : UState := { u with groups := mapInsert u.groups name group }
  match old with
  | some _ => (u', OpResult.panicked ("Group '" ++ name ++ "' existed already"))
  | none => (u', OpResult.ok ())

/-- A welcome artifact: the engine derives the group id and the joined
membership from it. -/
structure Welcome : Type where
  groupId : String
  members : List Member
  deriving DecidableEq

/-- Method `User::join_group`: build the engine group from the welcome, insert
it under its id; `HashMap::insert` returning the old session means the
insert *replaced* it, and only then is an `Err` naming the overridden group
returned. -/
def join_group (u : UState) (w : Welcome) : UState × Except String Unit :=
  let mls : MlsGroup := { groupId := w.groupId, members := w.members, pending := none }
  let group : Group := { group_name := w.groupId, conversation := { messages := [] },
                         mls_group := mls }
  let old := mapLookup u.groups w.groupId
  let u' : UState := { u with groups := mapInsert u.groups w.groupId group }
  match old with
  | some oldGroup => (u', Except.error ("Overrode the group \"" ++ oldGroup.group_name ++ "\""))
  | none => (u', Except.ok ())

/-- Method `User::send_msg`: unknown group is an error; otherwise the engine
encrypts (total in the model), recipients are computed, the artifact is
handed to the backend — and a delivery error is only `println!`ed, the
function still returns `Ok(())`. -/
def send_msg (u : UState) (b : Backend) (groupName : String) :
    UState × OpResult Unit × List Event :=
  match mapLookup u.groups groupName with
  | none => (u, OpResult.err "Unknown group", [])
  | some g =>
    match recipients u g with
    | none => (u, OpResult.panicked "There is a member in the group we do not know.", [])
    | some rs =>
      match b.sendMsgResult with
      | some e => (u, OpResult.ok (),
          [Event.sentMsg rs, Event.printedErr ("Error sending group message: " ++ e)])
      | none => (u, OpResult.ok (), [Event.sentMsg rs])

/-- Method `User::invite`: find the contact, consume one of its key packages,
stage an add commit, deliver the commit to the current recipients, and
only on delivered success merge it locally and send the welcome. -/
def invite (u : UState) (b : Backend) (name : String) (groupName : String) :
    UState × OpResult Unit × List Event :=
  match u.contacts.find? (fun kv => decide (kv.2.username = name)) with
  | none => (u, OpResult.err ("No contact with name " ++ name ++ " known."), [])
  | some (_, contact) =>
    match b.consumeKeyPackage contact.id with
    | none => (u, OpResult.panicked "consume_key_package failed (unwrap)", [])
    | some kp =>
      match mapLookup u.groups groupName with
      | none => (u, OpResult.err ("No group with name " ++ groupName ++ " known."), [])
      | some g =>
        let g1 : Group := { g with mls_group := g.mls_group.addMembers [kp.member] }
        let u1 : UState := { u with groups := mapInsert u.groups groupName g1 }
        match recipients u1 g1 with
        | none => (u1, OpResult.panicked "There is a member in the group we do not know.", [])
        | some rs =>
          match b.sendMsgResult with
          | some e => (u1, OpResult.err e, [Event.sentMsg rs])
          | none =>
            let g2 : Group := { g1 with mls_group := g1.mls_group.mergePendingCommit }
            let u2 : UState := { u1 with groups := mapInsert u1.groups groupName g2 }
            if b.sendWelcomeOk then
              (u2, OpResult.ok (),
                [Event.sentMsg rs, Event.mergedCommit groupName, Event.sentWelcome])
            else
              (u2, OpResult.panicked "Error sending Welcome message",
                [Event.sentMsg rs, Event.mergedCommit groupName])

/-- Method `User::remove`: look the group up, resolve the member name to a leaf
index — with `.unwrap()`, so an unknown member *panics* — stage a remove
commit, deliver it, and only then merge locally. -/
def remove (u : UState) (b : Backend) (name : String) (groupName : String) :
    UState × OpResult Unit × List Event :=
  match mapLookup u.groups groupName with
  | none => (u, OpResult.err ("No group with name " ++ groupName ++ " known."), [])
  | some g =>
    match find_member_index name g with
    | Except.error e => (u, OpResult.panicked e, [])
    | Except.ok leafIndex =>
      let g1 : Group := { g with mls_group := g.mls_group.removeMembers [leafIndex] }
      let u1 : UState := { u with groups := mapInsert u.groups groupName g1 }
      match recipients u1 g1 with
      | none => (u1, OpResult.panicked "There is a member in the group we do not know.", [])
      | some rs =>
        match b.sendMsgResult with
        | some e => (u1, OpResult.err e, [Event.sentMsg rs])
        | none =>
          let g2 : Group := { g1 with mls_group := g1.mls_group.mergePendingCommit }
          let u2 : UState := { u1 with groups := mapInsert u1.groups groupName g2 }
          (u2, OpResult.ok (), [Event.sentMsg rs, Event.mergedCommit groupName])

/-- What the engine returns for one processed protocol message
(`ProcessedMessageContent`); a staged commit carries the membership its
merge would install and whether `merge_staged_commit` succeeds. -/
inductive PMContent : Type
  | applicationMessage : String → PMContent
  | proposalMessage : PMContent
  | externalJoinProposalMessage : PMContent
  | stagedCommitMessage : List Member → Bool → PMContent
  deriving DecidableEq

/-- An inbound protocol-message artifact: its embedded group id and the
engine's processing result for it (`none` = `process_message` fails). -/
structure ProtocolMsg : Type where
  groupId : String
  content : Option PMContent
  deriving DecidableEq

/-- An inbound artifact drained by `update()`. -/
inductive InMsg : Type
  | welcomeMsg : Welcome → InMsg
  | privateMsg : ProtocolMsg → InMsg
  | publicMsg : ProtocolMsg → InMsg
  deriving DecidableEq

/-- The `process_protocol_message` closure of `User::update`: unknown
group id or engine failure drops the message (state unchanged);
application data is appended to the conversation and collected when it
passes the group-name filter; proposals are accepted without state
effect; a staged commit is merged (dropped if the merge fails). -/
def processProtocolMessage (filter : Option String) (u : UState) (m : ProtocolMsg) :
    UState × List String :=
  match mapLookup u.groups m.groupId with
  | none => (u, [])
  | some g =>
    match m.content with
    | none => (u, [])
    | some (PMContent.applicationMessage s) =>
      let g' : Group := { g with conversation := g.conversation.add s }
      let out := if filter = none ∨ filter = some g.group_name then [s] else []
      ({ u with groups := mapInsert u.groups m.groupId g' }, out)
    | some PMContent.proposalMessage => (u, [])
    | some PMContent.externalJoinProposalMessage => (u, [])
    | some (PMContent.stagedCommitMessage merged mergeOk) =>
      if mergeOk then
        let g' : Group := { g with mls_group := { g.mls_group with members := merged } }
        ({ u with groups := mapInsert u.groups m.groupId g' }, [])
      else (u, [])

/-- The message-draining loop of `User::update`: welcomes go through
`join_group` with `?` (an error aborts the whole call), protocol
messages through `process_protocol_message` with `continue` on error.
Returns the state, the collected application messages, and the aborting
error if any. -/
def updateLoop (filter : Option String) : UState → List InMsg → UState × List String × Option String
  | u, [] => (u, [], none)
  | u, InMsg.welcomeMsg w :: rest =>
    match join_group u w with
    | (u', Except.error e) => (u', [], some e)
    | (u', Except.ok _) => updateLoop filter u' rest
  | u, InMsg.privateMsg m :: rest =>
    let step := processProtocolMessage filter u m
    let cont := updateLoop filter step.1 rest
    (cont.1, step.2 ++ cont.2.1, cont.2.2)
  | u, InMsg.publicMsg m :: rest =>
    let step := processProtocolMessage filter u m
    let cont := updateLoop filter step.1 rest
    (cont.1, step.2 ++ cont.2.1, cont.2.2)

/-- One step of the contact-directory refresh in `User::update`: skip
the local identity, otherwise insert-or-replace the contact under the
remote id. -/
def refreshStep (identBytes : Bytes) (contacts : List (Bytes × Contact)) (c : ClientInfo) :
    List (Bytes × Contact) :=
  if c.id ≠ identBytes then
    mapInsert contacts c.id
      { username := c.client_name, id := c.id, public_keys := c.key_packages }
  else contacts

/-- The contact-directory refresh of `User::update` over the full
`list_clients()` response. -/
def refreshContacts (identBytes : Bytes) (contacts : List (Bytes × Contact))
    (clients : List ClientInfo) : List (Bytes × Contact) :=
  clients.foldl (refreshStep identBytes) contacts

/-- Method `User::update`: drain and dispatch the inbox (an aborting welcome
error returns early, before any refresh), then refresh the contact
directory from `list_clients()` and return the collected application
messages.  The two backend reads (`recv_msgs`, `list_clients`) are the
`inbox` and `clients` arguments. -/
def update (u : UState) (filter : Option String) (inbox : List InMsg)
    (clients : List ClientInfo) : UState × Except String (List String) :=
  match updateLoop filter u inbox with
  | (u1, _, some e) => (u1, Except.error e)
  | (u1, outs, none) =>
    ({ u1 with contacts := refreshContacts u1.identBytes u1.contacts clients },
     Except.ok outs)


/-- Valid byte content for a store: every key byte and value byte fits
in an octet (true of every real `Vec<u8>`). -/
def ValidBytes (m : KsMap) : Prop :=
  ∀ p ∈ m, (∀ b ∈ p.1, b < 256) ∧ (∀ b ∈ p.2, b < 256)



theorem charToSextet_sextetToChar : ∀ s < 64, charToSextet (sextetToChar s) = some s := by
  decide

theorem sextetToChar_ne_61 : ∀ s < 64, sextetToChar s ≠ 61 := by
  decide

/-- Round trip of the base64 codec on genuine bytes: what `save` writes,
`load` reads back unchanged. -/
theorem b64decode_b64encode (bs : List Nat) (h : ∀ b ∈ bs, b < 256) :
    b64decode (b64encode bs) = some bs := by
  induction bs using b64encode.induct with
  | case1 => simp [b64encode, b64decode]
  | case2 a =>
    have ha : a < 256 := h a (by simp)
    have e1 := charToSextet_sextetToChar (a / 4) (by omega)
    have e2 := charToSextet_sextetToChar (a % 4 * 16) (by omega)
    simp [b64encode, b64decode, e1, e2]
    all_goals omega
  | case3 a b =>
    have ha : a < 256 := h a (by simp)
    have hb : b < 256 := h b (by simp)
    have e1 := charToSextet_sextetToChar (a / 4) (by omega)
    have e2 := charToSextet_sextetToChar (a % 4 * 16 + b / 16) (by omega)
    have e3 := charToSextet_sextetToChar (b % 16 * 4) (by omega)
    have n3 := sextetToChar_ne_61 (b % 16 * 4) (by omega)
    simp [b64encode, b64decode, e1, e2, e3, n3]
    all_goals omega
  | case4 a b c rest ih =>
    have ha : a < 256 := h a (by simp)
    have hb : b < 256 := h b (by simp)
    have hc : c < 256 := h c (by simp)
    have hrest : ∀ x ∈ rest, x < 256 := fun x hx => h x (by simp [hx])
    have e1 := charToSextet_sextetToChar (a / 4) (by omega)
    have e2 := charToSextet_sextetToChar (a % 4 * 16 + b / 16) (by omega)
    have e3 := charToSextet_sextetToChar (b % 16 * 4 + c / 64) (by omega)
    have e4 := charToSextet_sextetToChar (c % 64) (by omega)
    have n3 := sextetToChar_ne_61 (b % 16 * 4 + c / 64) (by omega)
    have n4 := sextetToChar_ne_61 (c % 64) (by omega)
    simp [b64encode, b64decode, e1, e2, e3, n3, n4, e4, ih hrest]
    all_goals omega

/-! ### Map lemmas for the store -/

theorem ksLookup_insertReplace (m : KsMap) (k v : Bytes) (k' : Bytes) :
    ksLookup (insertReplace m k v) k' =
      if k = k' then some v else ksLookup m k' := by
  induction m with
  | nil =>
    by_cases h : k = k' <;> simp [insertReplace, ksLookup, h]
  | cons kv rest ih =>
    obtain ⟨k₀, v₀⟩ := kv
    by_cases h0 : k₀ = k
    · subst h0
      by_cases h : k₀ = k' <;> simp [insertReplace, ksLookup, h]
    · by_cases h : k₀ = k'
      · subst h
        have hne : k ≠ k₀ := fun hh => h0 hh.symm
        simp [insertReplace, ksLookup, h0, hne]
      · simp [insertReplace, ksLookup, h0, h, ih]

theorem ksLookup_mem {m : KsMap} {k v : Bytes} (h : ksLookup m k = some v) :
    k ∈ m.map Prod.fst := by
  induction m with
  | nil => simp [ksLookup] at h
  | cons kv rest ih =>
    obtain ⟨k₀, v₀⟩ := kv
    by_cases hk : k₀ = k
    · simp [hk]
    · simp only [ksLookup, if_neg hk] at h
      simp [ih h]

theorem ksLookup_append (xs ys : KsMap) (k : Bytes) :
    ksLookup (xs ++ ys) k =
      match ksLookup xs k with
      | some v => some v
      | none => ksLookup ys k := by
  induction xs with
  | nil => simp [ksLookup]
  | cons kv rest ih =>
    obtain ⟨k₀, v₀⟩ := kv
    by_cases h : k₀ = k <;> simp [ksLookup, h, ih]

/-- Lookup through a left fold of insertions: the last insertion of a
key wins; keys never inserted fall back to the initial map. -/
theorem ksLookup_foldl_insertReplace (l : KsMap) (m : KsMap) (k : Bytes) :
    ksLookup (l.foldl (fun acc kv => insertReplace acc kv.1 kv.2) m) k =
      match ksLookup l.reverse k with
      | some v => some v
      | none => ksLookup m k := by
  induction l generalizing m with
  | nil => simp [ksLookup]
  | cons kv rest ih =>
    obtain ⟨k₀, v₀⟩ := kv
    simp only [List.foldl_cons, List.reverse_cons]
    rw [ih, ksLookup_append]
    rcases hrest : ksLookup rest.reverse k with _ | v
    · rw [ksLookup_insertReplace]
      by_cases h : k₀ = k <;> simp [ksLookup, h]
    · rfl

/-- With no duplicate keys, lookup does not care about list order. -/
theorem ksLookup_reverse_of_nodupkeys (l : KsMap) (hn : (l.map Prod.fst).Nodup) (k : Bytes) :
    ksLookup l.reverse k = ksLookup l k := by
  induction l with
  | nil => simp
  | cons kv rest ih =>
    obtain ⟨k₀, v₀⟩ := kv
    simp only [List.map_cons, List.nodup_cons] at hn
    rw [List.reverse_cons, ksLookup_append, ih hn.2]
    by_cases h : k₀ = k
    · subst h
      rcases hrest : ksLookup rest k₀ with _ | v
      · simp [ksLookup]
      · exact absurd (ksLookup_mem hrest) hn.1
    · rcases hrest : ksLookup rest k with _ | v <;> simp [ksLookup, h, hrest]

/-- With no duplicate keys, lookup is invariant under permutation. -/
theorem ksLookup_perm_of_nodupkeys {l₁ l₂ : KsMap} (hp : l₁.Perm l₂)
    (hn : (l₁.map Prod.fst).Nodup) (k : Bytes) :
    ksLookup l₁ k = ksLookup l₂ k := by
  induction hp with
  | nil => rfl
  | cons kv _ ih =>
    simp only [List.map_cons, List.nodup_cons] at hn
    obtain ⟨k₀, v₀⟩ := kv
    by_cases h : k₀ = k <;> simp [ksLookup, h, ih hn.2]
  | swap kv₁ kv₂ rest =>
    simp only [List.map_cons, List.nodup_cons, List.mem_cons] at hn
    obtain ⟨k₁, v₁⟩ := kv₁
    obtain ⟨k₂, v₂⟩ := kv₂
    have hne : k₂ ≠ k₁ := fun h => hn.1 (Or.inl (by simp [h]))
    by_cases h1 : k₁ = k <;> by_cases h2 : k₂ = k
    · exact absurd (h2.trans h1.symm) hne
    · simp [ksLookup, h1, h2]
    · simp [ksLookup, h1, h2]
    · simp [ksLookup, h1, h2]
  | trans hp₁ hp₂ ih₁ ih₂ =>
    rw [ih₁ hn, ih₂ ((hp₁.map Prod.fst).nodup_iff.mp hn)]

/-- Loading the document `save` wrote replays the store's insertions:
every entry decodes (base64 round trip), so the loop is a fold of
`insertReplace` and ends `Ok`. -/
theorem loadEntries_saveDoc (l : KsMap) (m : KsMap) (hb : ValidBytes l) :
    loadEntries (saveDoc l) m =
      (l.foldl (fun acc kv => insertReplace acc kv.1 kv.2) m, LoadOutcome.ok) := by
  induction l generalizing m with
  | nil => simp [saveDoc, loadEntries]
  | cons kv rest ih =>
    obtain ⟨k, v⟩ := kv
    have hk := (hb (k, v) (by simp)).1
    have hv := (hb (k, v) (by simp)).2
    have hrest : ValidBytes rest := fun p hp => hb p (List.mem_cons_of_mem _ hp)
    simp only [saveDoc, List.map_cons, loadEntries, b64decode_b64encode k hk,
      b64decode_b64encode v hv, List.foldl_cons]
    exact ih (insertReplace m k v) hrest

/-! ## Generic map lemmas -/

theorem mapLookup_mapInsert {K V : Type} [DecidableEq K] (m : List (K × V)) (k : K) (v : V)
    (k' : K) :
    mapLookup (mapInsert m k v) k' = if k = k' then some v else mapLookup m k' := by
  induction m with
  | nil =>
    by_cases h : k = k' <;> simp [mapInsert, mapLookup, h]
  | cons kv rest ih =>
    obtain ⟨k₀, v₀⟩ := kv
    by_cases h0 : k₀ = k
    · subst h0
      by_cases h : k₀ = k' <;> simp [mapInsert, mapLookup, h]
    · by_cases h : k₀ = k'
      · subst h
        have hne : k ≠ k₀ := fun hh => h0 hh.symm
        simp [mapInsert, mapLookup, h0, hne]
      · simp [mapInsert, mapLookup, h0, h, ih]

theorem mapInsert_mapInsert {K V : Type} [DecidableEq K] (m : List (K × V)) (k : K) (v v' : V) :
    mapInsert (mapInsert m k v) k v' = mapInsert m k v' := by
  induction m with
  | nil => simp [mapInsert]
  | cons kv rest ih =>
    obtain ⟨k₀, v₀⟩ := kv
    by_cases h : k₀ = k
    · simp [mapInsert, h]
    · simp [mapInsert, h, ih]

theorem findQ_append {α : Type} (p : α → Bool) (l₁ l₂ : List α) :
    (l₁ ++ l₂).find? p =
      match l₁.find? p with
      | some x => some x
      | none => l₂.find? p := by
  induction l₁ with
  | nil => simp
  | cons a rest ih =>
    by_cases h : p a
    · simp [List.find?_cons_of_pos, h]
    · simp only [List.cons_append, List.find?_cons_of_neg _ h, ih]

theorem findQ_of_unique {α : Type} {p : α → Bool} {l : List α} {c : α} (hc : c ∈ l)
    (hpc : p c = true) (huniq : ∀ b ∈ l, p b = true → b = c) : l.find? p = some c := by
  induction l with
  | nil => cases hc
  | cons a rest ih =>
    by_cases hpa : p a = true
    · have ha : a = c := huniq a (by simp) hpa
      subst ha
      simp [List.find?_cons_of_pos, hpa]
    · have hcrest : c ∈ rest := by
        rcases List.mem_cons.mp hc with h | h
        · exact absurd (h ▸ hpc) hpa
        · exact h
      rw [List.find?_cons_of_neg _ (by simpa using hpa)]
      exact ih hcrest (fun b hb hpb => huniq b (List.mem_cons_of_mem _ hb) hpb)

/-! ## Claim theorems: the key/credential store -/

/-- C9: `read(k)` returns nothing exactly when `k` is absent or the
stored bytes fail to deserialize into the requested shape; both cases
are the same `none` to the caller (and `read`'s type `Option V` has no
error case at all). -/
theorem read_none_iff_absent_or_undeserializable {V : Type} (deser : Bytes → Option V)
    (m : KsMap) (k : Bytes) :
    ksRead deser m k = none ↔
      (ksLookup m k = none ∨ ∃ bs, ksLookup m k = some bs ∧ deser bs = none) := by
  unfold ksRead
  rcases h : ksLookup m k with _ | bs
  · simp
  · simp [h]

/-- C4, counterexample: a stored document whose second entry is not
valid base64 (`"="` alone) makes `load` panic on
`base64::decode(key).unwrap()` *after* inserting the first entry: the
call fails without returning a descriptive error and the in-memory map
is no longer what it was before the call (it gained an entry). -/
theorem load_partial_populate_counterexample :
    load_from_file [] (StoredDoc.parsed [(b64encode [1], b64encode [2]), ([61], [61])]) =
      ([([1], [2])], LoadOutcome.panicked "base64 decode of key failed (unwrap)") ∧
    ([([1], [2])] : KsMap) ≠ ([] : KsMap) := by
  constructor
  · rfl
  · simp

/-- C4 (amended): a failing `load` leaves the in-memory store exactly as
it was and reports a descriptive error — for a wrong password
(`cocoon.parse` failure) and for a parse failure of the stored JSON
document.  But an entry of a successfully parsed document that is not
valid base64 escapes this guarantee: `base64::decode(..).unwrap()`
panics, keeping the entries already inserted (see the counterexample). -/
theorem load_failure_leaves_store_untouched (ks : KsMap) (env : CocoonEnvelope)
    (password : String) (e : String) :
    (env.password ≠ password →
      ciphered_load ks env password =
        (ks, LoadOutcome.errMsg "Error parsing user keystore with cocoon")) ∧
    (load_from_file ks (StoredDoc.parseErr e) = (ks, LoadOutcome.errMsg e)) ∧
    (env.password = password → env.utf8Ok = true → env.payload = StoredDoc.parseErr e →
      ciphered_load ks env password = (ks, LoadOutcome.errMsg e)) := by
  refine ⟨fun hpw => ?_, rfl, fun hpw hutf hdoc => ?_⟩
  · simp [ciphered_load, hpw]
  · simp [ciphered_load, hpw, hutf, hdoc, load_from_file]

theorem load_failure_leaves_store_untouched_witness :
    ciphered_load [([3], [4])]
        { password := "right", utf8Ok := true, payload := StoredDoc.parseErr "bad json" }
        "wrong" =
      ([([3], [4])], LoadOutcome.errMsg "Error parsing user keystore with cocoon") :=
  (load_failure_leaves_store_untouched [([3], [4])]
    { password := "right", utf8Ok := true, payload := StoredDoc.parseErr "bad json" }
    "wrong" "bad json").1 (by decide)

/-- C5: storing binary pairs, saving (plain or password-protected) and
loading into a fresh store reproduces every stored value: every lookup
(hence every `read`) agrees with the original store, the load ends `Ok`,
and the result is unchanged under any reordering (permutation) of the
store's entries, i.e. the round trip does not depend on map iteration
order. -/
theorem save_load_roundtrip (l : KsMap) (password : String)
    (hb : ValidBytes l) (hn : (l.map Prod.fst).Nodup) :
    (∀ k, ksLookup (load_from_file [] (StoredDoc.parsed (saveDoc l))).1 k = ksLookup l k) ∧
    (load_from_file [] (StoredDoc.parsed (saveDoc l))).2 = LoadOutcome.ok ∧
    (∀ (V : Type) (deser : Bytes → Option V) (k : Bytes),
      ksRead deser (load_from_file [] (StoredDoc.parsed (saveDoc l))).1 k =
        ksRead deser l k) ∧
    (∀ k, ksLookup (ciphered_load [] (ciphered_save l password) password).1 k = ksLookup l k) ∧
    (ciphered_load [] (ciphered_save l password) password).2 = LoadOutcome.ok ∧
    (∀ l₂, l₂.Perm l →
      ∀ k, ksLookup (load_from_file [] (StoredDoc.parsed (saveDoc l₂))).1 k = ksLookup l k) := by
  have key : ∀ l' : KsMap, ValidBytes l' → (l'.map Prod.fst).Nodup →
      ∀ k, ksLookup (load_from_file [] (StoredDoc.parsed (saveDoc l'))).1 k = ksLookup l' k := by
    intro l' hb' hn' k
    simp only [load_from_file, loadEntries_saveDoc l' [] hb']
    rw [ksLookup_foldl_insertReplace]
    rcases h : ksLookup l'.reverse k with _ | v
    · simp only [ksLookup]
      rw [← ksLookup_reverse_of_nodupkeys l' hn' k, h]
    · rw [← ksLookup_reverse_of_nodupkeys l' hn' k, h]
  have hmain := key l hb hn
  have hok : (load_from_file [] (StoredDoc.parsed (saveDoc l))).2 = LoadOutcome.ok := by
    simp [load_from_file, loadEntries_saveDoc l [] hb]
  refine ⟨hmain, hok, ?_, ?_, ?_, ?_⟩
  · intro V deser k
    unfold ksRead
    rw [hmain k]
  · intro k
    simpa [ciphered_load, ciphered_save] using hmain k
  · simpa [ciphered_load, ciphered_save] using hok
  · intro l₂ hperm k
    have hb₂ : ValidBytes l₂ := fun p hp => hb p (hperm.mem_iff.mp hp)
    have hn₂ : (l₂.map Prod.fst).Nodup := ((hperm.map Prod.fst).nodup_iff).mpr hn
    rw [key l₂ hb₂ hn₂ k]
    exact ksLookup_perm_of_nodupkeys hperm hn₂ k

theorem save_load_roundtrip_witness :
    ksLookup (load_from_file []
        (StoredDoc.parsed (saveDoc [([0], [255]), ([1], [2])]))).1 [0] =
      ksLookup [([0], [255]), ([1], [2])] [0] :=
  (save_load_roundtrip [([0], [255]), ([1], [2])] "pw"
    (by unfold ValidBytes; decide) (by decide)).1 [0]

/-! ## Claim theorems: the contact-directory refresh -/

/-- Lookup after a refresh: the last listed client with that id (and a
non-local id) wins; ids never listed fall back to the previous
directory. -/
theorem mapLookup_refreshContacts (identBytes : Bytes) (ct : List (Bytes × Contact))
    (cs : List ClientInfo) (k : Bytes) :
    mapLookup (refreshContacts identBytes ct cs) k =
      match cs.reverse.find? (fun c => decide (c.id = k) && !decide (c.id = identBytes)) with
      | some c => some { username := c.client_name, id := c.id, public_keys := c.key_packages }
      | none => mapLookup ct k := by
  induction cs generalizing ct with
  | nil => simp [refreshContacts]
  | cons c rest ih =>
    have ih' := ih (refreshStep identBytes ct c)
    simp only [refreshContacts, List.foldl_cons] at ih' ⊢
    rw [ih', List.reverse_cons, findQ_append]
    rcases h : rest.reverse.find? (fun c => decide (c.id = k) && !decide (c.id = identBytes))
      with _ | c'
    · simp only [h]
      by_cases h1 : c.id = k
      · by_cases h2 : c.id = identBytes
        · have hk2 : k = identBytes := h1 ▸ h2
          simp [List.find?, refreshStep, h1, h2, hk2]
        · have hk2 : ¬k = identBytes := h1 ▸ h2
          simp [List.find?, refreshStep, h1, h2, hk2, mapLookup_mapInsert]
      · by_cases h2 : c.id = identBytes
        · simp [List.find?, refreshStep, h1, h2]
        · simp [List.find?, refreshStep, h1, h2, mapLookup_mapInsert]
    · simp only [h]

/-- C8: the directory refresh of `update()` inserts-or-replaces a
contact for every listed client whose id differs from the local
identity (for a duplicate-free client list, exactly the contact built
from that client), deletes nothing, and refreshing twice with the same
list gives a directory with identical lookups (key set and field
values) as refreshing once. -/
theorem refresh_insert_noDelete_idempotent (identBytes : Bytes)
    (ct : List (Bytes × Contact)) (clients : List ClientInfo) :
    (∀ c ∈ clients, c.id ≠ identBytes → (clients.map ClientInfo.id).Nodup →
      mapLookup (refreshContacts identBytes ct clients) c.id =
        some { username := c.client_name, id := c.id, public_keys := c.key_packages }) ∧
    (∀ k v, mapLookup ct k = some v →
      ∃ v', mapLookup (refreshContacts identBytes ct clients) k = some v') ∧
    (∀ k, mapLookup (refreshContacts identBytes
        (refreshContacts identBytes ct clients) clients) k =
      mapLookup (refreshContacts identBytes ct clients) k) := by
  refine ⟨?_, ?_, ?_⟩
  · intro c hc hne hnd
    rw [mapLookup_refreshContacts]
    have hfind : clients.reverse.find?
        (fun c' => decide (c'.id = c.id) && !decide (c'.id = identBytes)) = some c := by
      refine findQ_of_unique (List.mem_reverse.mpr hc) (by simp [hne]) ?_
      intro b hb hpb
      simp only [Bool.and_eq_true, decide_eq_true_eq] at hpb
      exact List.inj_on_of_nodup_map hnd (List.mem_reverse.mp hb) hc hpb.1
    rw [hfind]
  · intro k v hv
    rw [mapLookup_refreshContacts]
    rcases h : clients.reverse.find? (fun c => decide (c.id = k) && !decide (c.id = identBytes))
      with _ | c
    · exact ⟨v, by simp [h, hv]⟩
    · exact ⟨{ username := c.client_name, id := c.id, public_keys := c.key_packages },
        by simp [h]⟩
  · intro k
    rw [mapLookup_refreshContacts, mapLookup_refreshContacts]
    rcases h : clients.reverse.find? (fun c => decide (c.id = k) && !decide (c.id = identBytes))
      with _ | c <;> simp only [h]

theorem refresh_insert_noDelete_idempotent_witness :
    mapLookup (refreshContacts [9] [([7], { username := "old", id := [7], public_keys := [] })]
        [{ id := [5], client_name := "bob", key_packages := [[1]] }]) [5] =
      some { username := "bob", id := [5], public_keys := [[1]] } :=
  (refresh_insert_noDelete_idempotent [9]
      [([7], { username := "old", id := [7], public_keys := [] })]
      [{ id := [5], client_name := "bob", key_packages := [[1]] }]).1
    { id := [5], client_name := "bob", key_packages := [[1]] }
    (by simp) (by decide) (by decide)


/-! ## Claim theorems: group lifecycle and membership errors -/

/-- C2, counterexample: on a state that already has a session for `"g"`
(with a non-empty conversation), `create_group` *panics* — fatal to the
process, not just to the request — and `join_group` returns an error;
in both cases the `groups` mapping for `"g"` has already been replaced
by the fresh session (`HashMap::insert` ran before the duplicate
check), so the pre-existing session *is* overwritten.  The state is
Alice with one group `"g"` whose conversation holds `"old"`. -/
theorem duplicate_group_counterexample :
    ((create_group ⟨"alice", [0], [], [("g", ⟨"g", ⟨["old"]⟩, ⟨"g", [], none⟩⟩)]⟩ "g").2 =
        OpResult.panicked "Group 'g' existed already" ∧
      mapLookup (create_group ⟨"alice", [0], [],
          [("g", ⟨"g", ⟨["old"]⟩, ⟨"g", [], none⟩⟩)]⟩ "g").1.groups "g" ≠
        mapLookup [("g", (⟨"g", ⟨["old"]⟩, ⟨"g", [], none⟩⟩ : Group))] "g") ∧
    ((join_group ⟨"alice", [0], [], [("g", ⟨"g", ⟨["old"]⟩, ⟨"g", [], none⟩⟩)]⟩
          ⟨"g", []⟩).2 = Except.error "Overrode the group \"g\"" ∧
      mapLookup (join_group ⟨"alice", [0], [],
          [("g", ⟨"g", ⟨["old"]⟩, ⟨"g", [], none⟩⟩)]⟩ ⟨"g", []⟩).1.groups "g" ≠
        mapLookup [("g", (⟨"g", ⟨["old"]⟩, ⟨"g", [], none⟩⟩ : Group))] "g") := by
  refine ⟨⟨rfl, ?_⟩, ⟨rfl, ?_⟩⟩ <;> decide

/-- C2 (amended): attempting to create a group whose identifier already
has a session panics (process-fatal, not merely an error to the
request); attempting to join one via a welcome returns an error to the
caller; in both cases the new session has already replaced the
pre-existing one in the `groups` mapping at that identifier. -/
theorem duplicate_group_overwrites (u : UState) (name : String) (w : Welcome) :
    (∀ gOld, mapLookup u.groups name = some gOld →
      (create_group u name).2 = OpResult.panicked ("Group '" ++ name ++ "' existed already") ∧
      mapLookup (create_group u name).1.groups name =
        some ⟨name, ⟨[]⟩, ⟨name, [⟨0, u.signatureKey, strBytes u.username⟩], none⟩⟩) ∧
    (∀ gOld, mapLookup u.groups w.groupId = some gOld →
      (join_group u w).2 = Except.error ("Overrode the group \"" ++ gOld.group_name ++ "\"") ∧
      mapLookup (join_group u w).1.groups w.groupId =
        some ⟨w.groupId, ⟨[]⟩, ⟨w.groupId, w.members, none⟩⟩) := by
  constructor
  · intro gOld hOld
    unfold create_group
    simp [hOld, mapLookup_mapInsert]
  · intro gOld hOld
    unfold join_group
    simp [hOld, mapLookup_mapInsert]

theorem duplicate_group_overwrites_witness :
    (create_group ⟨"alice", [0], [], [("g", ⟨"g", ⟨["old"]⟩, ⟨"g", [], none⟩⟩)]⟩ "g").2 =
      OpResult.panicked ("Group '" ++ "g" ++ "' existed already") :=
  ((duplicate_group_overwrites
      ⟨"alice", [0], [], [("g", ⟨"g", ⟨["old"]⟩, ⟨"g", [], none⟩⟩)]⟩ "g" ⟨"g", []⟩).1
    ⟨"g", ⟨["old"]⟩, ⟨"g", [], none⟩⟩ (by decide)).1

/-- C3: `User::remove` on an existing group whose membership does not
contain the requested name does *not* return the "Unknown member" error
to the caller: `find_member_index` produces `Err("Unknown member")`, but
`remove` calls `.unwrap()` on it, so the process panics (the group state
is unchanged at that point).  The claim matches the evident intent of
`find_member_index` (a descriptive `Err`) and of `remove`'s
`Result<(), String>` signature; the `.unwrap()` at `user.rs:404` is the
slip.  This theorem evaluates the embedded `remove` at the failing
input: Alice alone in `"g"`, removing the absent `"charlie"`. -/
theorem remove_unknown_member_panics :
    remove ⟨"alice", [0], [], [("g", ⟨"g", ⟨[]⟩,
          ⟨"g", [⟨0, [0], strBytes "alice"⟩], none⟩⟩)]⟩
        ⟨none, true, fun _ => none⟩ "charlie" "g" =
      (⟨"alice", [0], [], [("g", ⟨"g", ⟨[]⟩,
          ⟨"g", [⟨0, [0], strBytes "alice"⟩], none⟩⟩)]⟩,
       OpResult.panicked "Unknown member", []) := by
  rfl

/-- C6, counterexample: with a transport whose delivery fails with
`"boom"`, `send_msg` on a known group still returns `Ok(())`; the
failure is only `println!`ed, never surfaced to the caller — the claim
that the delivery failure "is returned as a descriptive error to the
immediate caller" is false.  The state is Alice alone in `"g"` (so the
recipient list is empty), with a backend whose delivery fails. -/
theorem send_msg_swallow_counterexample :
    send_msg ⟨"alice", [0], [], [("g", ⟨"g", ⟨[]⟩,
          ⟨"g", [⟨0, [0], strBytes "alice"⟩], none⟩⟩)]⟩
        ⟨some "boom", true, fun _ => none⟩ "g" =
      (⟨"alice", [0], [], [("g", ⟨"g", ⟨[]⟩,
          ⟨"g", [⟨0, [0], strBytes "alice"⟩], none⟩⟩)]⟩,
       OpResult.ok (),
       [Event.sentMsg [], Event.printedErr "Error sending group message: boom"]) := by
  rfl

/-- C6 (amended): when the transport's delivery of the encrypted
artifact fails in `send_msg` on a known group, the error is printed to
stdout and `send_msg` nevertheless returns `Ok(())` to the immediate
caller — the delivery failure is swallowed, an additional silent case
beyond `read`'s deserialization mismatch and `update`'s per-message
isolation. -/
theorem send_msg_prints_and_returns_ok (u : UState) (b : Backend) (gname : String)
    (g : Group) (rs : List Bytes) (e : String)
    (hg : mapLookup u.groups gname = some g)
    (hrs : recipients u g = some rs)
    (he : b.sendMsgResult = some e) :
    send_msg u b gname =
      (u, OpResult.ok (),
       [Event.sentMsg rs, Event.printedErr ("Error sending group message: " ++ e)]) := by
  simp [send_msg, hg, hrs, he]

theorem send_msg_prints_and_returns_ok_witness :
    send_msg ⟨"alice", [0], [], [("g", ⟨"g", ⟨[]⟩,
          ⟨"g", [⟨0, [0], strBytes "alice"⟩], none⟩⟩)]⟩
        ⟨some "boom", true, fun _ => none⟩ "g" =
      (⟨"alice", [0], [], [("g", ⟨"g", ⟨[]⟩,
          ⟨"g", [⟨0, [0], strBytes "alice"⟩], none⟩⟩)]⟩,
       OpResult.ok (),
       [Event.sentMsg [], Event.printedErr ("Error sending group message: " ++ "boom")]) :=
  send_msg_prints_and_returns_ok
    ⟨"alice", [0], [], [("g", ⟨"g", ⟨[]⟩, ⟨"g", [⟨0, [0], strBytes "alice"⟩], none⟩⟩)]⟩
    ⟨some "boom", true, fun _ => none⟩ "g"
    ⟨"g", ⟨[]⟩, ⟨"g", [⟨0, [0], strBytes "alice"⟩], none⟩⟩ [] "boom"
    (by decide) (by decide) rfl

/-! ## Claim theorems: inbound dispatch (`update`) -/

/-- The message loop is compositional: processing `l₁ ++ l₂` is
processing `l₁`, then — unless a welcome aborted it — processing `l₂`
from the reached state, with the collected messages concatenated. -/
theorem updateLoop_append (filter : Option String) (u : UState) (l₁ l₂ : List InMsg) :
    updateLoop filter u (l₁ ++ l₂) =
      match updateLoop filter u l₁ with
      | (u₁, outs, some e) => (u₁, outs, some e)
      | (u₁, outs, none) =>
        ((updateLoop filter u₁ l₂).1,
         outs ++ (updateLoop filter u₁ l₂).2.1,
         (updateLoop filter u₁ l₂).2.2) := by
  induction l₁ generalizing u with
  | nil => simp [updateLoop]
  | cons msg rest ih =>
    cases msg with
    | welcomeMsg w =>
      rcases hj : join_group u w with ⟨u', r⟩
      cases r with
      | error e => simp [updateLoop, hj]
      | ok _ => simp only [List.cons_append, updateLoop, hj]; exact ih u'
    | privateMsg m =>
      simp only [List.cons_append, updateLoop, List.append_eq]
      rw [ih]
      rcases h : updateLoop filter (processProtocolMessage filter u m).1 rest
        with ⟨u₁, outs, err⟩
      simp only [h]
      cases err <;> simp
    | publicMsg m =>
      simp only [List.cons_append, updateLoop, List.append_eq]
      rw [ih]
      rcases h : updateLoop filter (processProtocolMessage filter u m).1 rest
        with ⟨u₁, outs, err⟩
      simp only [h]
      cases err <;> simp

/-- A protocol message with an unknown group id, or one the engine
fails to process, is dropped: state unchanged, nothing collected. -/
theorem processProtocolMessage_bad (filter : Option String) (u : UState) (m : ProtocolMsg)
    (h : mapLookup u.groups m.groupId = none ∨ m.content = none) :
    processProtocolMessage filter u m = (u, []) := by
  unfold processProtocolMessage
  rcases h with h | h
  · simp [h]
  · rcases hg : mapLookup u.groups m.groupId with _ | g <;> simp [hg, h]

/-- C7: in a batch drained by `update()`, a protocol message (private or
public) whose embedded group id matches no session at that point, or
whose engine processing fails, is dropped individually: the whole call
behaves exactly as if that one message were absent from the batch, so
every other message is still processed. -/
theorem update_drops_bad_message_only (filter : Option String) (u : UState)
    (l₁ l₂ : List InMsg) (m : ProtocolMsg)
    (h : mapLookup (updateLoop filter u l₁).1.groups m.groupId = none ∨ m.content = none) :
    updateLoop filter u (l₁ ++ InMsg.privateMsg m :: l₂) = updateLoop filter u (l₁ ++ l₂) ∧
    updateLoop filter u (l₁ ++ InMsg.publicMsg m :: l₂) = updateLoop filter u (l₁ ++ l₂) ∧
    (∀ clients, update u filter (l₁ ++ InMsg.privateMsg m :: l₂) clients =
      update u filter (l₁ ++ l₂) clients) ∧
    (∀ clients, update u filter (l₁ ++ InMsg.publicMsg m :: l₂) clients =
      update u filter (l₁ ++ l₂) clients) := by
  rcases hL : updateLoop filter u l₁ with ⟨u₁, outs, err⟩
  rw [hL] at h
  simp only at h
  have key1 : updateLoop filter u (l₁ ++ InMsg.privateMsg m :: l₂) =
      updateLoop filter u (l₁ ++ l₂) := by
    rw [updateLoop_append, updateLoop_append, hL]
    cases err with
    | some e => rfl
    | none => simp [updateLoop, processProtocolMessage_bad filter u₁ m h]
  have key2 : updateLoop filter u (l₁ ++ InMsg.publicMsg m :: l₂) =
      updateLoop filter u (l₁ ++ l₂) := by
    rw [updateLoop_append, updateLoop_append, hL]
    cases err with
    | some e => rfl
    | none => simp [updateLoop, processProtocolMessage_bad filter u₁ m h]
  refine ⟨key1, key2, fun clients => ?_, fun clients => ?_⟩
  · unfold update
    rw [key1]
  · unfold update
    rw [key2]

theorem update_drops_bad_message_only_witness :
    update ⟨"alice", [0], [], [("g", ⟨"g", ⟨[]⟩,
          ⟨"g", [⟨0, [0], strBytes "alice"⟩], none⟩⟩)]⟩ none
        ([InMsg.privateMsg ⟨"g", some (PMContent.applicationMessage "hi")⟩] ++
          InMsg.privateMsg ⟨"nope", some (PMContent.applicationMessage "zap")⟩ ::
          [InMsg.privateMsg ⟨"g", some (PMContent.applicationMessage "bye")⟩]) [] =
      update ⟨"alice", [0], [], [("g", ⟨"g", ⟨[]⟩,
          ⟨"g", [⟨0, [0], strBytes "alice"⟩], none⟩⟩)]⟩ none
        ([InMsg.privateMsg ⟨"g", some (PMContent.applicationMessage "hi")⟩] ++
          [InMsg.privateMsg ⟨"g", some (PMContent.applicationMessage "bye")⟩]) [] :=
  (update_drops_bad_message_only none
      ⟨"alice", [0], [], [("g", ⟨"g", ⟨[]⟩,
        ⟨"g", [⟨0, [0], strBytes "alice"⟩], none⟩⟩)]⟩
      [InMsg.privateMsg ⟨"g", some (PMContent.applicationMessage "hi")⟩]
      [InMsg.privateMsg ⟨"g", some (PMContent.applicationMessage "bye")⟩]
      ⟨"nope", some (PMContent.applicationMessage "zap")⟩
      (by decide)).2.2.1 []

/-- C10: `update()`'s isolation does not cover welcome artifacts: when
`join_group` fails for a welcome in the batch, `update` propagates that
error immediately — the returned state is exactly the post-join state
reached after the prefix (nothing after the failing welcome is
processed, whatever `l₂` is), the result is that error, and the contact
directory is never refreshed (the final contacts are those from before
the `list_clients()` step, for any client list). -/
theorem update_welcome_failure_aborts (filter : Option String) (u u₁ : UState)
    (l₁ l₂ : List InMsg) (w : Welcome) (outs : List String) (e : String)
    (h₁ : updateLoop filter u l₁ = (u₁, outs, none))
    (h₂ : (join_group u₁ w).2 = Except.error e) :
    ∀ clients, update u filter (l₁ ++ InMsg.welcomeMsg w :: l₂) clients =
        ((join_group u₁ w).1, Except.error e) ∧
      ((join_group u₁ w).1).contacts = u₁.contacts := by
  intro clients
  rcases hj : join_group u₁ w with ⟨u', r⟩
  rw [hj] at h₂
  simp only at h₂
  subst h₂
  have hloop : updateLoop filter u (l₁ ++ InMsg.welcomeMsg w :: l₂) =
      (u', outs, some e) := by
    rw [updateLoop_append, h₁]
    simp [updateLoop, hj]
  have hu : u' = (join_group u₁ w).1 := by rw [hj]
  constructor
  · unfold update
    rw [hloop]
  · have hc : u'.contacts = u₁.contacts := by
      rw [hu]
      unfold join_group
      rcases hold : mapLookup u₁.groups w.groupId with _ | gOld <;> simp [hold]
    simpa [hj] using hc

theorem update_welcome_failure_aborts_witness :
    update ⟨"alice", [0], [], [("g", ⟨"g", ⟨[]⟩,
          ⟨"g", [⟨0, [0], strBytes "alice"⟩], none⟩⟩)]⟩ none
        ([] ++ InMsg.welcomeMsg ⟨"g", []⟩ ::
          [InMsg.privateMsg ⟨"g", some (PMContent.applicationMessage "x")⟩]) [] =
      ((join_group ⟨"alice", [0], [], [("g", ⟨"g", ⟨[]⟩,
          ⟨"g", [⟨0, [0], strBytes "alice"⟩], none⟩⟩)]⟩ ⟨"g", []⟩).1,
       Except.error "Overrode the group \"g\"") :=
  ((update_welcome_failure_aborts none
      ⟨"alice", [0], [], [("g", ⟨"g", ⟨[]⟩,
        ⟨"g", [⟨0, [0], strBytes "alice"⟩], none⟩⟩)]⟩
      ⟨"alice", [0], [], [("g", ⟨"g", ⟨[]⟩,
        ⟨"g", [⟨0, [0], strBytes "alice"⟩], none⟩⟩)]⟩
      [] [InMsg.privateMsg ⟨"g", some (PMContent.applicationMessage "x")⟩]
      ⟨"g", []⟩ [] "Overrode the group \"g\"" rfl (by rfl)) []).1

/-! ## Claim theorems: the invite/remove two-phase protocol -/

/-- Function `recipients` only reads the contact directory and the local
signature key, so it is unaffected by the `groups` mutation staged
between `add_members`/`remove_members` and the send. -/
theorem recipientsList_eq_of_same (u u' : UState) (h1 : u.signatureKey = u'.signatureKey)
    (h2 : u.contacts = u'.contacts) (ms : List Member) :
    recipientsList u ms = recipientsList u' ms := by
  induction ms with
  | nil => rfl
  | cons m rest ih => simp [recipientsList, h1, h2, ih]

/-- Exhaustive shapes of `User::invite`: an early error leaves the state
untouched with an empty trace; past `add_members` the staged (unmerged)
commit is in the state; the commit is delivered before any merge, a
failed delivery returns its error with no merge, and a successful
delivery merges and then sends the welcome. -/
theorem invite_cases (u : UState) (b : Backend) (name groupName : String) :
    (∃ s, invite u b name groupName = (u, OpResult.err s, [])) ∨
    (∃ s, invite u b name groupName = (u, OpResult.panicked s, [])) ∨
    (∃ (g : Group) (kp : KeyPackage), mapLookup u.groups groupName = some g ∧
      ((invite u b name groupName =
          ({ u with groups := mapInsert u.groups groupName { g with mls_group := g.mls_group.addMembers [kp.member] } },
           OpResult.panicked "There is a member in the group we do not know.", [])) ∨
       (∃ rs e, b.sendMsgResult = some e ∧
          recipientsList u g.mls_group.members = some rs ∧
          invite u b name groupName =
            ({ u with groups := mapInsert u.groups groupName { g with mls_group := g.mls_group.addMembers [kp.member] } },
             OpResult.err e, [Event.sentMsg rs])) ∨
       (∃ rs, b.sendMsgResult = none ∧
          recipientsList u g.mls_group.members = some rs ∧
          (invite u b name groupName =
             ({ u with groups := mapInsert u.groups groupName { g with mls_group := (g.mls_group.addMembers [kp.member]).mergePendingCommit } },
              OpResult.ok (),
              [Event.sentMsg rs, Event.mergedCommit groupName, Event.sentWelcome]) ∨
           invite u b name groupName =
             ({ u with groups := mapInsert u.groups groupName { g with mls_group := (g.mls_group.addMembers [kp.member]).mergePendingCommit } },
              OpResult.panicked "Error sending Welcome message",
              [Event.sentMsg rs, Event.mergedCommit groupName]))))) := by
  rcases h1 : u.contacts.find? (fun kv => decide (kv.2.username = name)) with _ | cv
  · exact Or.inl ⟨"No contact with name " ++ name ++ " known.", by simp [invite, h1]⟩
  · rcases h2 : b.consumeKeyPackage cv.2.id with _ | kp
    · exact Or.inr (Or.inl ⟨"consume_key_package failed (unwrap)", by simp [invite, h1, h2]⟩)
    · rcases h3 : mapLookup u.groups groupName with _ | g
      · exact Or.inl ⟨"No group with name " ++ groupName ++ " known.", by simp [invite, h1, h2, h3]⟩
      · have hrec : recipients
            { u with groups := mapInsert u.groups groupName { g with mls_group := g.mls_group.addMembers [kp.member] } }
            { g with mls_group := g.mls_group.addMembers [kp.member] } =
            recipientsList u g.mls_group.members := by
          unfold recipients
          exact (recipientsList_eq_of_same u
            { u with groups := mapInsert u.groups groupName { g with mls_group := g.mls_group.addMembers [kp.member] } }
            rfl rfl g.mls_group.members).symm
        rcases h4 : recipientsList u g.mls_group.members with _ | rs
        · refine Or.inr (Or.inr ⟨g, kp, rfl, Or.inl ?_⟩)
          simp [invite, h1, h2, h3, hrec, h4]
        · rcases h5 : b.sendMsgResult with _ | e
          · cases h6 : b.sendWelcomeOk
            · refine Or.inr (Or.inr ⟨g, kp, rfl, Or.inr (Or.inr ⟨rs, rfl, h4, Or.inr ?_⟩)⟩)
              simp [invite, h1, h2, h3, hrec, h4, h5, h6, mapInsert_mapInsert]
            · refine Or.inr (Or.inr ⟨g, kp, rfl, Or.inr (Or.inr ⟨rs, rfl, h4, Or.inl ?_⟩)⟩)
              simp [invite, h1, h2, h3, hrec, h4, h5, h6, mapInsert_mapInsert]
          · refine Or.inr (Or.inr ⟨g, kp, rfl, Or.inr (Or.inl ⟨rs, e, rfl, h4, ?_⟩)⟩)
            simp [invite, h1, h2, h3, hrec, h4, h5]

/-- Exhaustive shapes of `User::remove`, mirroring `invite_cases`
(including the `.unwrap()` panic on an unknown member). -/
theorem remove_cases (u : UState) (b : Backend) (name groupName : String) :
    (∃ s, remove u b name groupName = (u, OpResult.err s, [])) ∨
    (∃ s, remove u b name groupName = (u, OpResult.panicked s, [])) ∨
    (∃ (g : Group) (idx : Nat), mapLookup u.groups groupName = some g ∧
      find_member_index name g = Except.ok idx ∧
      ((remove u b name groupName =
          ({ u with groups := mapInsert u.groups groupName { g with mls_group := g.mls_group.removeMembers [idx] } },
           OpResult.panicked "There is a member in the group we do not know.", [])) ∨
       (∃ rs e, b.sendMsgResult = some e ∧
          recipientsList u g.mls_group.members = some rs ∧
          remove u b name groupName =
            ({ u with groups := mapInsert u.groups groupName { g with mls_group := g.mls_group.removeMembers [idx] } },
             OpResult.err e, [Event.sentMsg rs])) ∨
       (∃ rs, b.sendMsgResult = none ∧
          recipientsList u g.mls_group.members = some rs ∧
          remove u b name groupName =
            ({ u with groups := mapInsert u.groups groupName { g with mls_group := (g.mls_group.removeMembers [idx]).mergePendingCommit } },
             OpResult.ok (), [Event.sentMsg rs, Event.mergedCommit groupName])))) := by
  rcases h3 : mapLookup u.groups groupName with _ | g
  · exact Or.inl ⟨"No group with name " ++ groupName ++ " known.", by simp [remove, h3]⟩
  · rcases h2 : find_member_index name g with e | idx
    · exact Or.inr (Or.inl ⟨e, by simp [remove, h3, h2]⟩)
    · have hrec : recipients
          { u with groups := mapInsert u.groups groupName { g with mls_group := g.mls_group.removeMembers [idx] } }
          { g with mls_group := g.mls_group.removeMembers [idx] } =
          recipientsList u g.mls_group.members := by
        unfold recipients
        exact (recipientsList_eq_of_same u
          { u with groups := mapInsert u.groups groupName { g with mls_group := g.mls_group.removeMembers [idx] } }
          rfl rfl g.mls_group.members).symm
      rcases h4 : recipientsList u g.mls_group.members with _ | rs
      · refine Or.inr (Or.inr ⟨g, idx, rfl, h2, Or.inl ?_⟩)
        simp [remove, h3, h2, hrec, h4]
      · rcases h5 : b.sendMsgResult with _ | e
        · refine Or.inr (Or.inr ⟨g, idx, rfl, h2, Or.inr (Or.inr ⟨rs, rfl, h4, ?_⟩)⟩)
          simp [remove, h3, h2, hrec, h4, h5, mapInsert_mapInsert]
        · refine Or.inr (Or.inr ⟨g, idx, rfl, h2, Or.inr (Or.inl ⟨rs, e, rfl, h4, ?_⟩)⟩)
          simp [remove, h3, h2, hrec, h4, h5]
/-- When delivery fails, `invite` never merges, never returns `Ok`, and
leaves every group's membership as it was (only a staged, unmerged
commit may have been added). -/
theorem invite_failure_facts (u : UState) (b : Backend) (name groupName : String) (e : String)
    (he : b.sendMsgResult = some e) :
    (∀ gid, Event.mergedCommit gid ∉ (invite u b name groupName).2.2) ∧
    (invite u b name groupName).2.1 ≠ OpResult.ok () ∧
    (∀ n, (mapLookup (invite u b name groupName).1.groups n).map (fun gr => gr.mls_group.members) =
      (mapLookup u.groups n).map (fun gr => gr.mls_group.members)) := by
  rcases invite_cases u b name groupName with ⟨s, h⟩ | ⟨s, h⟩ | ⟨g, kp, hg, hrest⟩
  · rw [h]
    exact ⟨by simp, by simp, fun n => rfl⟩
  · rw [h]
    exact ⟨by simp, by simp, fun n => rfl⟩
  · rcases hrest with h | ⟨rs, e', hs, hr, h⟩ | ⟨rs, hs, hr, h⟩
    · rw [h]
      refine ⟨by simp, by simp, fun n => ?_⟩
      simp only [mapLookup_mapInsert]
      by_cases hn : groupName = n
      · subst hn
        simp [hg, MlsGroup.addMembers]
      · simp [hn]
    · rw [h]
      refine ⟨by simp, by simp, fun n => ?_⟩
      simp only [mapLookup_mapInsert]
      by_cases hn : groupName = n
      · subst hn
        simp [hg, MlsGroup.addMembers]
      · simp [hn]
    · rw [he] at hs
      exact absurd hs (by simp)

/-- When delivery fails, `remove` never merges, never returns `Ok`, and
leaves every group's membership as it was. -/
theorem remove_failure_facts (u : UState) (b : Backend) (name groupName : String) (e : String)
    (he : b.sendMsgResult = some e) :
    (∀ gid, Event.mergedCommit gid ∉ (remove u b name groupName).2.2) ∧
    (remove u b name groupName).2.1 ≠ OpResult.ok () ∧
    (∀ n, (mapLookup (remove u b name groupName).1.groups n).map (fun gr => gr.mls_group.members) =
      (mapLookup u.groups n).map (fun gr => gr.mls_group.members)) := by
  rcases remove_cases u b name groupName with ⟨s, h⟩ | ⟨s, h⟩ | ⟨g, idx, hg, hfm, hrest⟩
  · rw [h]
    exact ⟨by simp, by simp, fun n => rfl⟩
  · rw [h]
    exact ⟨by simp, by simp, fun n => rfl⟩
  · rcases hrest with h | ⟨rs, e', hs, hr, h⟩ | ⟨rs, hs, hr, h⟩
    · rw [h]
      refine ⟨by simp, by simp, fun n => ?_⟩
      simp only [mapLookup_mapInsert]
      by_cases hn : groupName = n
      · subst hn
        simp [hg, MlsGroup.removeMembers]
      · simp [hn]
    · rw [h]
      refine ⟨by simp, by simp, fun n => ?_⟩
      simp only [mapLookup_mapInsert]
      by_cases hn : groupName = n
      · subst hn
        simp [hg, MlsGroup.removeMembers]
      · simp [hn]
    · rw [he] at hs
      exact absurd hs (by simp)

/-- C1: the two-phase invariant of `invite` and `remove`.  (1)/(2): in
every event trace either operation can produce, a local
`merge_pending_commit` only occurs at position 1, right after the
delivery of the commit artifact at position 0 — the commit is delivered
strictly before the local merge.  (3): if the transport's delivery
fails, neither operation merges, neither returns `Ok`, and every
group's membership is exactly as before the attempt.  (4)/(5): on an
existing group with a resolvable contact/member and successful
delivery, the trace is exactly deliver-to-the-current-recipients, then
merge, (then welcome), and only then does the state hold the merged
commit. -/
theorem invite_remove_two_phase (u : UState) (b : Backend) (name groupName : String) :
    (∀ gid, Event.mergedCommit gid ∈ (invite u b name groupName).2.2 →
      ∃ rs, (invite u b name groupName).2.2.get? 0 = some (Event.sentMsg rs) ∧
        (invite u b name groupName).2.2.get? 1 = some (Event.mergedCommit gid)) ∧
    (∀ gid, Event.mergedCommit gid ∈ (remove u b name groupName).2.2 →
      ∃ rs, (remove u b name groupName).2.2.get? 0 = some (Event.sentMsg rs) ∧
        (remove u b name groupName).2.2.get? 1 = some (Event.mergedCommit gid)) ∧
    (∀ e, b.sendMsgResult = some e →
      (∀ gid, Event.mergedCommit gid ∉ (invite u b name groupName).2.2) ∧
      (invite u b name groupName).2.1 ≠ OpResult.ok () ∧
      (∀ n, (mapLookup (invite u b name groupName).1.groups n).map (fun gr => gr.mls_group.members) =
        (mapLookup u.groups n).map (fun gr => gr.mls_group.members)) ∧
      (∀ gid, Event.mergedCommit gid ∉ (remove u b name groupName).2.2) ∧
      (remove u b name groupName).2.1 ≠ OpResult.ok () ∧
      (∀ n, (mapLookup (remove u b name groupName).1.groups n).map (fun gr => gr.mls_group.members) =
        (mapLookup u.groups n).map (fun gr => gr.mls_group.members))) ∧
    (∀ (g : Group) (ck : Bytes) (ct : Contact) (kp : KeyPackage) (rs : List Bytes),
      mapLookup u.groups groupName = some g →
      u.contacts.find? (fun kv => decide (kv.2.username = name)) = some (ck, ct) →
      b.consumeKeyPackage ct.id = some kp →
      recipientsList u g.mls_group.members = some rs →
      b.sendMsgResult = none → b.sendWelcomeOk = true →
      invite u b name groupName =
        ({ u with groups := mapInsert u.groups groupName { g with mls_group := (g.mls_group.addMembers [kp.member]).mergePendingCommit } },
         OpResult.ok (),
         [Event.sentMsg rs, Event.mergedCommit groupName, Event.sentWelcome])) ∧
    (∀ (g : Group) (idx : Nat) (rs : List Bytes),
      mapLookup u.groups groupName = some g →
      find_member_index name g = Except.ok idx →
      recipientsList u g.mls_group.members = some rs →
      b.sendMsgResult = none →
      remove u b name groupName =
        ({ u with groups := mapInsert u.groups groupName { g with mls_group := (g.mls_group.removeMembers [idx]).mergePendingCommit } },
         OpResult.ok (), [Event.sentMsg rs, Event.mergedCommit groupName])) := by
  refine ⟨?_, ?_, ?_, ?_, ?_⟩
  · intro gid hmem
    rcases invite_cases u b name groupName with ⟨s, h⟩ | ⟨s, h⟩ | ⟨g, kp, hg, hrest⟩
    · rw [h] at hmem
      simp at hmem
    · rw [h] at hmem
      simp at hmem
    · rcases hrest with h | ⟨rs, e', hs, hr, h⟩ | ⟨rs, hs, hr, h⟩
      · rw [h] at hmem
        simp at hmem
      · rw [h] at hmem
        simp at hmem
      · rcases h with h | h <;>
          (rw [h] at hmem ⊢
           simp at hmem
           subst hmem
           exact ⟨rs, rfl, rfl⟩)
  · intro gid hmem
    rcases remove_cases u b name groupName with ⟨s, h⟩ | ⟨s, h⟩ | ⟨g, idx, hg, hfm, hrest⟩
    · rw [h] at hmem
      simp at hmem
    · rw [h] at hmem
      simp at hmem
    · rcases hrest with h | ⟨rs, e', hs, hr, h⟩ | ⟨rs, hs, hr, h⟩
      · rw [h] at hmem
        simp at hmem
      · rw [h] at hmem
        simp at hmem
      · rw [h] at hmem ⊢
        simp at hmem
        subst hmem
        exact ⟨rs, rfl, rfl⟩
  · intro e he
    obtain ⟨i1, i2, i3⟩ := invite_failure_facts u b name groupName e he
    obtain ⟨r1, r2, r3⟩ := remove_failure_facts u b name groupName e he
    exact ⟨i1, i2, i3, r1, r2, r3⟩
  · intro g ck ct kp rs hg hc hkp hrs h5 h6
    have hrec : recipients
        { u with groups := mapInsert u.groups groupName { g with mls_group := g.mls_group.addMembers [kp.member] } }
        { g with mls_group := g.mls_group.addMembers [kp.member] } =
        recipientsList u g.mls_group.members := by
      unfold recipients
      exact (recipientsList_eq_of_same u
        { u with groups := mapInsert u.groups groupName { g with mls_group := g.mls_group.addMembers [kp.member] } }
        rfl rfl g.mls_group.members).symm
    simp [invite, hc, hkp, hg, hrec, hrs, h5, h6, mapInsert_mapInsert]
  · intro g idx rs hg hfm hrs h5
    have hrec : recipients
        { u with groups := mapInsert u.groups groupName { g with mls_group := g.mls_group.removeMembers [idx] } }
        { g with mls_group := g.mls_group.removeMembers [idx] } =
        recipientsList u g.mls_group.members := by
      unfold recipients
      exact (recipientsList_eq_of_same u
        { u with groups := mapInsert u.groups groupName { g with mls_group := g.mls_group.removeMembers [idx] } }
        rfl rfl g.mls_group.members).symm
    simp [remove, hg, hfm, hrec, hrs, h5, mapInsert_mapInsert]

theorem invite_remove_two_phase_witness :
    invite
      ⟨"alice", [0], [(strBytes "bob", ⟨"bob", [7], []⟩)],
        [("g", ⟨"g", ⟨[]⟩, ⟨"g", [⟨0, [0], strBytes "alice"⟩], none⟩⟩)]⟩
      ⟨none, true, fun _ => some ⟨⟨1, [5], strBytes "bob"⟩⟩⟩ "bob" "g" =
    (⟨"alice", [0], [(strBytes "bob", ⟨"bob", [7], []⟩)],
       [("g", ⟨"g", ⟨[]⟩,
          ⟨"g", [⟨0, [0], strBytes "alice"⟩, ⟨1, [5], strBytes "bob"⟩], none⟩⟩)]⟩,
     OpResult.ok (), [Event.sentMsg [], Event.mergedCommit "g", Event.sentWelcome]) :=
  (invite_remove_two_phase
      ⟨"alice", [0], [(strBytes "bob", ⟨"bob", [7], []⟩)],
        [("g", ⟨"g", ⟨[]⟩, ⟨"g", [⟨0, [0], strBytes "alice"⟩], none⟩⟩)]⟩
      ⟨none, true, fun _ => some ⟨⟨1, [5], strBytes "bob"⟩⟩⟩ "bob" "g").2.2.2.1
    ⟨"g", ⟨[]⟩, ⟨"g", [⟨0, [0], strBytes "alice"⟩], none⟩⟩
    (strBytes "bob") ⟨"bob", [7], []⟩ ⟨⟨1, [5], strBytes "bob"⟩⟩ []
    (by decide) (by decide) rfl (by decide) rfl rfl
end OpenmlsFfy
